import Mathlib

/-!
Verification development for the clickhouse_backend schema introspection code:
the type-string decoder of `management/commands/inspectdb.py` and the
constraint/index extraction of `backend/introspection.py`, embedded shallowly.

Strings are modelled as `List Char`; Python string slicing `s[i:]` becomes
`List.drop`, indexing `s[i]` becomes `l[i]?` (an out-of-range access, which
raises `IndexError` in Python, becomes `none`), and a Python function that may
raise an uncaught exception is embedded as an `Option`-valued function whose
`none` means the call raises.
-/

set_option linter.unusedVariables false

abbrev Str := List Char

/-- Python `merge_params(*params)` from inspectdb.py: join the non-empty
parameter strings with a comma and a space. -/
def merge_params (ps : List Str) : Str :=
  List.intercalate (r", ".data) (ps.filter (fun p => p ≠ []))

/-- The scan `while s[i].isdigit(): i += 1` starting at the head of the list:
returns the consumed digit run and the rest.  Reaching the end of the string
while the loop is still running raises `IndexError` in Python (the condition
itself indexes out of range), hence `none` on `[]`.  (Python's `str.isdigit`
also accepts some non-ASCII digits; the type strings scanned here are ASCII.) -/
def scanDigits : Str → Option (Str × Str)
  | [] => none
  | c :: rest =>
    if c.isDigit then
      (scanDigits rest).map (fun p => (c :: p.1, p.2))
    else some ([], c :: rest)

/-- The label scan of `consume_enum_choice` (the `while True` loop beginning at
index 1): walk until an unescaped single quote, skipping two characters at each
backslash and recording whether any `\x` escape was seen.  Returns the consumed
characters (closing quote included), the `has_bytes` flag and the rest of the
input.  Running off the end of the string raises `IndexError`, hence `none`. -/
def scanLabelAux : Str → Bool → Option (Str × Bool × Str)
  | [], _ => none
  | c :: rest, hb =>
    if c = '\\' then
      match rest with
      | [] => none
      | d :: rest2 =>
        (scanLabelAux rest2 (hb || d = 'x')).map
          (fun t => (c :: d :: t.1, t.2.1, t.2.2))
    else if c = '\'' then some ([c], hb, rest)
    else (scanLabelAux rest hb).map (fun t => (c :: t.1, t.2.1, t.2.2))

/-- Hexadecimal digit value. -/
def hexVal (c : Char) : Option Nat :=
  if '0' ≤ c ∧ c ≤ '9' then some (c.toNat - 48)
  else if 'a' ≤ c ∧ c ≤ 'f' then some (c.toNat - 87)
  else if 'A' ≤ c ∧ c ≤ 'F' then some (c.toNat - 55)
  else none

/-- Octal digit value. -/
def octVal (c : Char) : Option Nat :=
  if '0' ≤ c ∧ c ≤ '7' then some (c.toNat - 48) else none

/-- Body of a Python bytes literal, as evaluated by `eval(f"b{name}...")` in
`consume_enum_choice`: the characters strictly between the enclosing single
quotes, turned into the byte values denoted.  `none` models a `SyntaxError`
raised by `eval` (invalid `\x` escape, an unescaped quote or raw newline, or a
non-ASCII character inside a bytes literal).  Unknown escapes `\c` keep the
backslash and the character; octal escapes take up to three digits (CPython
reduces out-of-range octal values modulo 256).  Structurally fueled (each step
consumes at least one character, so any fuel above the length suffices). -/
def pyBytesBody : Nat → Str → Option (List Nat)
  | 0, _ => none
  | _ + 1, [] => some []
  | f + 1, c :: rest =>
    if c = '\\' then
      match rest with
      | [] => none
      | e :: rest2 =>
        if e.toNat ≥ 128 then none
        else if e = 'x' then
          match rest2 with
          | h1 :: h2 :: rest3 =>
            match hexVal h1, hexVal h2 with
            | some v1, some v2 =>
              (pyBytesBody f rest3).map (fun bs => (16 * v1 + v2) :: bs)
            | _, _ => none
          | _ => none
        else if e = '\\' then (pyBytesBody f rest2).map (fun bs => 92 :: bs)
        else if e = '\'' then (pyBytesBody f rest2).map (fun bs => 39 :: bs)
        else if e = '"' then (pyBytesBody f rest2).map (fun bs => 34 :: bs)
        else if e = 'n' then (pyBytesBody f rest2).map (fun bs => 10 :: bs)
        else if e = 't' then (pyBytesBody f rest2).map (fun bs => 9 :: bs)
        else if e = 'r' then (pyBytesBody f rest2).map (fun bs => 13 :: bs)
        else if e = 'a' then (pyBytesBody f rest2).map (fun bs => 7 :: bs)
        else if e = 'b' then (pyBytesBody f rest2).map (fun bs => 8 :: bs)
        else if e = 'f' then (pyBytesBody f rest2).map (fun bs => 12 :: bs)
        else if e = 'v' then (pyBytesBody f rest2).map (fun bs => 11 :: bs)
        else if e = '\n' then pyBytesBody f rest2
        else
          match octVal e with
          | none => (pyBytesBody f rest2).map (fun bs => 92 :: e.toNat :: bs)
          | some v1 =>
            match rest2 with
            | [] => some [v1]
            | d2 :: rest3 =>
              match octVal d2 with
              | none => (pyBytesBody f (d2 :: rest3)).map (fun bs => v1 :: bs)
              | some v2 =>
                match rest3 with
                | [] => some [(8 * v1 + v2) % 256]
                | d3 :: rest4 =>
                  match octVal d3 with
                  | none => (pyBytesBody f (d3 :: rest4)).map (fun bs => (8 * v1 + v2) % 256 :: bs)
                  | some v3 =>
                    (pyBytesBody f rest4).map (fun bs => (64 * v1 + 8 * v2 + v3) % 256 :: bs)
    else if c = '\'' ∨ c = '\n' ∨ c = '\r' then none
    else if c.toNat ≥ 128 then none
    else (pyBytesBody f rest).map (fun bs => c.toNat :: bs)

/-- Evaluation of the full bytes literal `b{name}`: `name` must be a
single-quote-delimited token, and its interior is decoded by `pyBytesBody`;
anything else is a `SyntaxError` (`none`). -/
def pyBytesLit (name : Str) : Option (List Nat) :=
  match name with
  | [] => none
  | c :: rest =>
    if c = '\'' then
      if rest ≠ [] ∧ rest.getLast? = some '\'' then
        pyBytesBody (rest.length + 1) rest.dropLast
      else none
    else none

/-- Strict UTF-8 decoding of a byte sequence, as performed by
`bytes.decode('utf-8')`; `none` models `UnicodeDecodeError`. -/
def utf8Decode : List Nat → Option (List Char)
  | [] => some []
  | b :: rest =>
    if b < 128 then
      (utf8Decode rest).map (fun cs => Char.ofNat b :: cs)
    else if 194 ≤ b ∧ b ≤ 223 then
      match rest with
      | b2 :: rest2 =>
        if 128 ≤ b2 ∧ b2 ≤ 191 then
          (utf8Decode rest2).map (fun cs => Char.ofNat ((b - 192) * 64 + (b2 - 128)) :: cs)
        else none
      | _ => none
    else if 224 ≤ b ∧ b ≤ 239 then
      match rest with
      | b2 :: b3 :: rest2 =>
        let lo2 : Nat := if b = 224 then 160 else 128
        let hi2 : Nat := if b = 237 then 159 else 191
        if (lo2 ≤ b2 ∧ b2 ≤ hi2) ∧ (128 ≤ b3 ∧ b3 ≤ 191) then
          (utf8Decode rest2).map
            (fun cs => Char.ofNat ((b - 224) * 4096 + (b2 - 128) * 64 + (b3 - 128)) :: cs)
        else none
      | _ => none
    else if 240 ≤ b ∧ b ≤ 244 then
      match rest with
      | b2 :: b3 :: b4 :: rest2 =>
        let lo2 : Nat := if b = 240 then 144 else 128
        let hi2 : Nat := if b = 244 then 143 else 191
        if (lo2 ≤ b2 ∧ b2 ≤ hi2) ∧ (128 ≤ b3 ∧ b3 ≤ 191) ∧ (128 ≤ b4 ∧ b4 ≤ 191) then
          (utf8Decode rest2).map
            (fun cs =>
              Char.ofNat ((b - 240) * 262144 + (b2 - 128) * 4096 + (b3 - 128) * 64 + (b4 - 128)) :: cs)
        else none
      | _ => none
    else none

/-- Python `repr` of a text string, used by `consume_enum_choice` on a
successfully decoded label.  Quote choice: double quotes when the string
contains a single quote but no double quote, single quotes otherwise; the
backslash, the chosen quote, and the control characters are escaped.  (CPython
additionally consults `unicodedata` to escape non-printable non-ASCII
characters; the theorems below only evaluate `pyRepr` on ASCII text, where this
model is exact.) -/
def pyReprEsc (q : Char) (c : Char) : Str :=
  if c = '\\' then ['\\', '\\']
  else if c = q then ['\\', q]
  else if c = '\n' then ['\\', 'n']
  else if c = '\r' then ['\\', 'r']
  else if c = '\t' then ['\\', 't']
  else if c.toNat < 32 ∨ c.toNat = 127 then
    ['\\', 'x',
      (r"0123456789abcdef".data.getD (c.toNat / 16) '0'),
      (r"0123456789abcdef".data.getD (c.toNat % 16) '0')]
  else [c]

/-- Python `repr` of a decoded label (see `pyReprEsc`). -/
def pyRepr (s : Str) : Str :=
  let q : Char := if s.contains '\'' ∧ ¬ s.contains '"' then '"' else '\''
  q :: (s.flatMap (pyReprEsc q)) ++ [q]

/-- The byte-escape recovery step of `consume_enum_choice`: evaluate
`b{name}.decode('utf-8')`; on success replace the label with the `repr` of the
decoded text, on `UnicodeDecodeError` fall back to `b{name}`.  A `SyntaxError`
raised by `eval` itself (malformed bytes literal) is not caught: `none`. -/
def decode_label (name : Str) : Option Str :=
  match pyBytesLit name with
  | none => none
  | some bs =>
    match utf8Decode bs with
    | some txt => some (pyRepr txt)
    | none => some ('b' :: name)

/-- Python `consume_enum_choice(s)` from inspectdb.py: scan a `'label' = value`
pair.  Returns `(name, value, remainder)`; `none` models an uncaught exception
(IndexError from the scans, or SyntaxError from the byte-literal `eval`). -/
def consume_enum_choice (s : Str) : Option (Str × Str × Str) :=
  match s with
  | [] => none
  | c0 :: rest => do
    let (consumed, hb, rest2) ← scanLabelAux rest false
    let name := c0 :: consumed
    let name2 ← if hb then decode_label name else some name
    let (value, rest4) ← scanDigits (rest2.drop 3)
    some (name2, value, rest4)

/-- The `while remain[0] != ")"` loop of the `Enum` branch of
`inspect_field_type`: consume further `, 'label' = value` pairs, accumulating
the rendered choice tuples.  Structurally fueled; each iteration models one
loop pass (`remain[0]` on an empty string raises `IndexError`). -/
def enum_loop : Nat → Str → List Str → Option (List Str × Str)
  | 0, _, _ => none
  | f + 1, remain, choices =>
    match remain with
    | [] => none
    | c :: _ =>
      if c = ')' then some (choices, remain)
      else do
        let (name, value, remain') ← consume_enum_choice (remain.drop 2)
        enum_loop f remain' (choices ++ [r"(".data ++ value ++ r", ".data ++ name ++ r")".data])

/-- Modelled from the spec: `models.DateTime64Field.DEFAULT_PRECISION` lives in
`clickhouse_backend/models`, which is not among the given sources.  Its value
only decides whether a `precision=…` parameter is emitted; it never affects the
scan position, and no claim depends on it. -/
def DEFAULT_PRECISION : Nat := 6

/-- Python `int(c)` on a one-character string: the digit value, `ValueError`
(`none`) otherwise.  (Python would also accept some non-ASCII digits.) -/
def charInt (c : Char) : Option Nat :=
  if c.isDigit then some (c.toNat - 48) else none

/-- The scan `i = k; while s[i] != q: i += 1` of the `DateTime64` timezone
argument: index of the first occurrence of `q` in the list, offset by `i0`;
`none` models the `IndexError` raised when the scan runs off the end. -/
def findCharIdx : Str → Nat → Char → Option Nat
  | [], _, _ => none
  | c :: rest, i, q => if c = q then some i else findCharIdx rest (i + 1) q

/-- Argument of one recursive activation inside `inspect_field_type`: either a
full `inspect_field_type(s, param)` call, or the state of the `Tuple` branch's
`while remain[0] == ","` loop. -/
inductive Call where
  | field (s param : Str)
  | tloop (remain : Str)

/-- Shallow embedding of `Command.inspect_field_type` from inspectdb.py (plus
the `Tuple` branch's element loop), as a structurally fueled interpreter so
that it reduces in the kernel.  The result is the ordered list of yielded
output fragments together with the generator's return value (the unconsumed
remainder of the type string); `none` models an uncaught exception.  The
argument of `ensure_str` is already a string here.  Each recursive call and
each loop pass consumes one unit of fuel, so any fuel larger than the input
length is sufficient. -/
def inspect_core : Nat → Call → Option (List Str × Str)
  | 0, _ => none
  | f + 1, .field s param =>
    if (r"LowCardinality".data).isPrefixOf s then do
      let p := merge_params [param, r"low_cardinality=True".data]
      let (out, remain) ← inspect_core f (.field (s.drop 15) p)
      some (out, remain.drop 1)
    else if (r"Nullable".data).isPrefixOf s then do
      let p := merge_params [param, r"null=True".data, r"blank=True".data]
      let (out, remain) ← inspect_core f (.field (s.drop 9) p)
      some (out, remain.drop 1)
    else if (r"FixedString".data).isPrefixOf s then do
      let (digits, rest) ← scanDigits (s.drop 12)
      let p := merge_params [param, r"max_bytes=".data ++ digits]
      some ([r"models.FixedStringField(".data ++ p ++ r")".data], rest.drop 1)
    else if (r"DateTime64".data).isPrefixOf s then do
      let c11 ← s[11]?
      let prec ← charInt c11
      let p := if prec ≠ DEFAULT_PRECISION then
          merge_params [param, r"precision=".data ++ [c11]]
        else param
      let out := [r"models.DateTime64Field(".data ++ p ++ r")".data]
      let c12 ← s[12]?
      if c12 = ',' then do
        let k ← findCharIdx (s.drop 15) 15 '\''
        some (out, s.drop (k + 2))
      else some (out, s.drop 13)
    else if (r"DateTime".data).isPrefixOf s then
      let out := [r"models.DateTimeField(".data ++ param ++ r")".data]
      if 8 < s.length ∧ s[8]? = some '(' then
        match s[10]? with
        | none => none
        | some c =>
          if c ≠ '\'' then some (out, s.drop 13) else some (out, s.drop 8)
      else some (out, s.drop 8)
    else if (r"Decimal".data).isPrefixOf s then do
      let (d1, r1) ← scanDigits (s.drop 8)
      let (d2, r2) ← scanDigits (r1.drop 2)
      let p := merge_params [param, r"max_digits=".data ++ d1, r"decimal_places=".data ++ d2]
      some ([r"models.DecimalField(".data ++ p ++ r")".data], r2.drop 1)
    else if (r"Enum".data).isPrefixOf s then do
      let (wd, rest1) ← scanDigits (s.drop 4)
      let typ := s.take (4 + wd.length)
      let (name, value, remain) ← consume_enum_choice (rest1.drop 1)
      let (choices, remain2) ← enum_loop f remain [r"(".data ++ value ++ r", ".data ++ name ++ r")".data]
      let p := merge_params [param, r"choices=[".data ++ (List.intercalate (r", ".data) choices) ++ r"]".data]
      some ([r"models.".data ++ typ ++ r"Field(".data ++ p ++ r")".data], remain2.drop 1)
    else if (r"Array".data).isPrefixOf s then do
      let (out1, remain) ← inspect_core f (.field (s.drop 6) [])
      some ((r"models.ArrayField(".data) :: out1
              ++ (if param ≠ [] then [r", ".data ++ param] else []) ++ [r")".data],
            remain.drop 1)
    else if (r"Tuple".data).isPrefixOf s then do
      let (out1, remain) ← inspect_core f (.field (s.drop 6) [])
      let (out2, remain2) ← inspect_core f (.tloop remain)
      some ((r"models.TupleField([".data) :: out1 ++ out2 ++ [r"]".data]
              ++ (if param ≠ [] then [r", ".data ++ param] else []) ++ [r")".data],
            remain2.drop 1)
    else if (r"Map".data).isPrefixOf s then do
      let (o1, r1) ← inspect_core f (.field (s.drop 4) [])
      let (o2, r2) ← inspect_core f (.field (r1.drop 2) [])
      some ((r"models.MapField(".data) :: o1 ++ [r", ".data] ++ o2
              ++ (if param ≠ [] then [r", ".data ++ param] else []) ++ [r")".data],
            r2.drop 1)
    else if (r"Object('json')".data).isPrefixOf s then
      some ([r"models.JSONField(".data ++ param ++ r")".data], s.drop 14)
    else
      some ([r"models.".data ++ s.takeWhile Char.isAlphanum ++ r"Field(".data ++ param ++ r")".data],
            s.dropWhile Char.isAlphanum)
  | f + 1, .tloop remain =>
    match remain with
    | [] => none
    | c :: _ =>
      if c = ',' then do
        let (o1, r1) ← inspect_core f (.field (remain.drop 2) [])
        let (o2, r2) ← inspect_core f (.tloop r1)
        some ((r", ".data) :: o1 ++ o2, r2)
      else some ([], remain)

/-- One `inspect_field_type(column_type, param)` call at a given fuel. -/
def inspect_field_type (fuel : Nat) (s param : Str) : Option (List Str × Str) :=
  inspect_core fuel (.field s param)

/-- The `Tuple` element loop at a given fuel. -/
def tuple_loop (fuel : Nat) (remain : Str) : Option (List Str × Str) :=
  inspect_core fuel (.tloop remain)

/-- The fuel used when `handle_inspection` invokes the decoder on a column's
raw type string: any value above the string's length is sufficient (each fuel
unit accompanies a strict shortening of the scanned remainder). -/
def field_define (typ param : Str) : Option (List Str × Str) :=
  inspect_field_type (typ.length + 2) typ param

/-- One iteration of the column loop of `Command.handle_inspection`: build the
yielded model-field line for a column.  The name normalisation, comment and
extra-parameter handling are performed by the external Django base command and
are identity here (`att_name` is the given name, `param` is empty); the control
flow around `inspect_field_type` — in particular the absence of any per-column
exception handling — is exactly that of the source.  `none` models the
uncaught exception propagating out of `"".join(self.inspect_field_type(...))`. -/
def field_line (att typ : Str) : Option Str :=
  (field_define typ []).map
    (fun p => r"    ".data ++ att ++ r" = ".data ++ p.1.flatten)

/-- The column loop of `Command.handle_inspection` over a table description,
each row given as `(attribute name, raw type string)`.  Returns the lines the
generator yields before either finishing (`false`) or being aborted by an
uncaught exception from a column's type decode (`true`).  There is no
`try/except` at the column boundary in the source (only the table-level one
around `get_constraints`/`get_table_description`), so a decode failure stops
the loop: no line for the failing column or any later column is produced. -/
def handle_rows : List (Str × Str) → List Str × Bool
  | [] => ([], false)
  | (att, typ) :: rest =>
    match field_line att typ with
    | none => ([], true)
    | some line =>
      let p := handle_rows rest
      (line :: p.1, p.2)

/-- Python `data_types_reverse` of `DatabaseIntrospection` in introspection.py:
maps type codes to Django field types. -/
def data_types_reverse : List (Str × Str) :=
  [(r"String".data, r"TextField".data),
   (r"Int64".data, r"BigIntegerField".data),
   (r"Int16".data, r"SmallIntegerField".data),
   (r"Int32".data, r"IntegerField".data),
   (r"UInt64".data, r"PositiveBigIntegerField".data),
   (r"UInt16".data, r"PositiveSmallIntegerField".data),
   (r"UInt32".data, r"PositiveIntegerField".data),
   (r"Float32".data, r"FloatField".data),
   (r"Float64".data, r"FloatField".data),
   (r"IPv4".data, r"GenericIPAddressField".data),
   (r"IPv6".data, r"GenericIPAddressField".data),
   (r"Date".data, r"DateField".data),
   (r"Date32".data, r"DateField".data),
   (r"DateTime".data, r"DateTimeField".data),
   (r"UUID".data, r"UUIDField".data)]

/-- Django `BaseDatabaseIntrospection.get_field_type`: a dictionary lookup in
`data_types_reverse`; a missing key raises `KeyError`, modelled as `none`.
The `description` row is not consulted by the base implementation. -/
def base_get_field_type (data_type : Str) : Option Str :=
  (data_types_reverse.find? (fun p => p.1 = data_type)).map (fun p => p.2)

/-- Python `DatabaseIntrospection.get_field_type` from introspection.py:
`FixedString`/`DateTime64`/`Decimal` prefixes map to fixed field types, a
`Nullable(...)` wrapper is stripped (`data_type[9:-1]`) and the function
recurses, anything else falls back to the base dictionary lookup.  The
`description` argument is passed through unused, as in the source. -/
def get_field_type (data_type : Str) (description : Option Str) : Option Str :=
  if (r"FixedString".data).isPrefixOf data_type then some (r"CharField".data)
  else if (r"DateTime64".data).isPrefixOf data_type then some (r"DateTimeField".data)
  else if (r"Decimal".data).isPrefixOf data_type then some (r"DecimalField".data)
  else if h : (r"Nullable".data).isPrefixOf data_type then
    get_field_type ((data_type.drop 9).dropLast) description
  else base_get_field_type data_type
termination_by data_type.length
decreasing_by
  have hlen : 8 ≤ data_type.length := by
    have h8 : (r"Nullable".data).length = 8 := rfl
    exact h8 ▸ (List.isPrefixOf_iff_prefix.mp h).length_le
  simp only [List.length_dropLast, List.length_drop]
  omega

/-- Text between the first opening parenthesis and the next closing one:
extracts the parameter segment of a rendered field definition such as
`models.Int16Field(null=True, blank=True)`. -/
def paramSegment (s : Str) : Str :=
  ((s.dropWhile (fun c => c ≠ '(')).drop 1).takeWhile (fun c => c ≠ ')')

/-- Split a rendered parameter list on the separator used by `merge_params`
(a comma followed by a space). -/
def splitParams : Str → List Str
  | [] => [[]]
  | ',' :: ' ' :: rest => [] :: splitParams rest
  | c :: rest =>
    match splitParams rest with
    | [] => [[c]]
    | g :: gs => (c :: g) :: gs

/-- The set of wrapper-flag parameters attached to a rendered field
definition: the parenthesized parameter segment split at `", "`. -/
def flagSet (s : Str) : List Str := splitParams (paramSegment s)

/-- Abstract syntax of the regular-expression fragment used by the two
patterns of introspection.py: literals and character classes, concatenation,
prioritized alternation, greedy star, lazy plus, numbered capturing groups and
group-conditional branches `(?(n)a|b)`. -/
inductive RE where
  | eps : RE
  | pred : (Char → Bool) → RE
  | seq : RE → RE → RE
  | alt : RE → RE → RE
  | star : RE → RE
  | lazyPlus : RE → RE
  | group : Nat → RE → RE
  | cond : Nat → RE → RE → RE

/-- Captured groups: group number to captured text.  A group absent from the
list did not participate in the match. -/
abbrev Caps := List (Nat × Str)

/-- Backtracking matcher with Python `re` semantics: `RE.run f re s caps`
returns the list of `(remaining input, captures)` for every way `re` can match
a prefix of `s`, in the priority order in which a backtracking engine would
find them (so the head is the match Python reports).  Greedy star prefers more
iterations, lazy plus fewer, alternation prefers its left branch.  Fuel is
consumed by the star/lazy iterations; since every repetition body in the
patterns below consumes at least one character, fuel above the input length is
sufficient. -/
def RE.run : Nat → RE → Str → Caps → List (Str × Caps)
  | _, .eps, s, caps => [(s, caps)]
  | _, .pred p, s, caps =>
    match s with
    | [] => []
    | c :: rest => if p c then [(rest, caps)] else []
  | 0, .seq _ _, _, _ => []
  | f + 1, .seq a b, s, caps =>
    (RE.run f a s caps).flatMap (fun r => RE.run f b r.1 r.2)
  | 0, .alt _ _, _, _ => []
  | f + 1, .alt a b, s, caps => RE.run f a s caps ++ RE.run f b s caps
  | 0, .star _, s, caps => [(s, caps)]
  | f + 1, .star a, s, caps =>
    (RE.run f a s caps).flatMap (fun r => RE.run f (.star a) r.1 r.2) ++ [(s, caps)]
  | 0, .lazyPlus _, _, _ => []
  | f + 1, .lazyPlus a, s, caps =>
    (RE.run f a s caps).flatMap (fun r => r :: RE.run f (.lazyPlus a) r.1 r.2)
  | 0, .group _ _, _, _ => []
  | f + 1, .group n a, s, caps =>
    (RE.run f a s caps).map (fun r => (r.1, (n, s.take (s.length - r.1.length)) :: r.2))
  | 0, .cond _ _ _, _, _ => []
  | f + 1, .cond n a b, s, caps =>
    if (caps.lookup n).isSome then RE.run f a s caps else RE.run f b s caps

/-- A single literal character. -/
def RE.ch (c : Char) : RE := .pred (fun d => d = c)

/-- A literal string. -/
def RE.lit (w : Str) : RE := w.foldr (fun c r => .seq (.ch c) r) .eps

/-- Greedy `?` (prefer presence). -/
def RE.opt (a : RE) : RE := .alt a .eps

/-- Greedy `+`: one occurrence followed by a greedy star. -/
def RE.plus (a : RE) : RE := .seq a (.star a)

/-- The `.` class without DOTALL: any character except a newline. -/
def RE.dot : RE := .pred (fun c => c ≠ '\n')

/-- Python `\S`: any non-whitespace character (ASCII whitespace; the DDL text
scanned here is ASCII). -/
def notSpace : Char → Bool :=
  fun c => ¬ (c = ' ' ∨ c = '\t' ∨ c = '\n' ∨ c = '\r' ∨ c.toNat = 11 ∨ c.toNat = 12)

/-- The shared identifier alternative `(?(1)(?:[^\\`]|\\.)+|\S+)` of both
patterns: with a backtick opener, one or more of (any character other than a
backslash or backtick) or (a backslash followed by any non-newline character);
without one, one or more non-whitespace characters. -/
def namePart : RE :=
  .cond 1
    (RE.plus (.alt (.pred (fun c => ¬ (c = '\\' ∨ c = '`'))) (.seq (RE.ch '\\') RE.dot)))
    (RE.plus (.pred notSpace))

/-- Fuel that is always sufficient for `RE.run` on the two patterns below:
no repetition body is nullable and no repetitions are nested, so the
recursion depth is bounded by the pattern size plus the input length. -/
def runFuel (s : Str) : Nat := s.length + 200

/-- `constraint_pattern` of introspection.py:
the regex `CONSTRAINT (`)?((?(1)(?:[^\\`]|\\.)+|\S+))(?(1)`|) (CHECK .+?),?\n`. -/
def constraint_pattern : RE :=
  .seq (RE.lit (r"CONSTRAINT ".data))
    (.seq (RE.opt (.group 1 (RE.ch '`')))
      (.seq (.group 2 namePart)
        (.seq (.cond 1 (RE.ch '`') .eps)
          (.seq (RE.ch ' ')
            (.seq (.group 3 (.seq (RE.lit (r"CHECK ".data)) (.lazyPlus RE.dot)))
              (.seq (RE.opt (RE.ch ',')) (RE.ch '\n')))))))

/-- `index_pattern` of introspection.py: the regex
`INDEX (`)?((?(1)(?:[^\\`]|\\.)+|\S+))(?(1)`|) (.+? TYPE ([a-zA-Z_][0-9a-zA-Z_]*)\(.+?\) GRANULARITY \d+)`. -/
def index_pattern : RE :=
  .seq (RE.lit (r"INDEX ".data))
    (.seq (RE.opt (.group 1 (RE.ch '`')))
      (.seq (.group 2 namePart)
        (.seq (.cond 1 (RE.ch '`') .eps)
          (.seq (RE.ch ' ')
            (.group 3
              (.seq (.lazyPlus RE.dot)
                (.seq (RE.lit (r" TYPE ".data))
                  (.seq (.group 4 (.seq (.pred (fun c => c.isAlpha ∨ c = '_'))
                                        (.star (.pred (fun c => c.isAlphanum ∨ c = '_')))))
                    (.seq (RE.ch '(')
                      (.seq (.lazyPlus RE.dot)
                        (.seq (RE.ch ')')
                          (.seq (RE.lit (r" GRANULARITY ".data))
                            (RE.plus (.pred Char.isDigit))))))))))))))

/-- Leftmost match: try the pattern at each start position in turn and report
the backtracking engine's first full match, as `(captures, input after the
match)`. -/
def firstMatch : RE → Str → Option (Caps × Str)
  | re, s =>
    match (RE.run (runFuel s) re s []).head? with
    | some r => some (r.2, r.1)
    | none =>
      match s with
      | [] => none
      | _ :: t => firstMatch re t

/-- Python `pattern.findall(text)`: repeatedly take the leftmost match and
continue after its end, collecting the captures of every match.  (The `drop 1`
guard steps past a zero-width match; the two patterns here always consume at
least one character.)  Structurally fueled by the text length. -/
def findallAux : Nat → RE → Str → List Caps
  | 0, _, _ => []
  | f + 1, re, s =>
    match firstMatch re s with
    | none => []
    | some (caps, rest) =>
      caps :: findallAux f re (if rest.length < s.length then rest else rest.drop 1)

/-- Python `pattern.findall(text)` (see `findallAux`). -/
def findall (re : RE) (s : Str) : List Caps :=
  findallAux (s.length + 1) re s

/-- Captured group as Python `findall` reports it: the captured text, or the
empty string for a group that did not participate. -/
def capStr (caps : Caps) (n : Nat) : Str := (caps.lookup n).getD []

/-- One value of the `constraints` dict built by
`DatabaseIntrospection.get_constraints`.  The keys absent from one of the two
dict shapes in the source (`orders` and `type` are only set for indexes) are
modelled with `Option`; the fields the source always sets to constants are
kept. -/
structure ConstraintInfo where
  columns : List Str
  orders : Option (List Str)
  primary_key : Bool
  unique : Bool
  foreign_key : Option Str
  check : Bool
  index : Bool
  type_ : Option Str
  definition : Str
deriving DecidableEq

/-- Python dict assignment `d[k] = v`: overwrite in place if the key exists,
append otherwise (insertion order preserved). -/
def dictSet (d : List (Str × ConstraintInfo)) (k : Str) (v : ConstraintInfo) :
    List (Str × ConstraintInfo) :=
  if d.any (fun p => p.1 = k) then
    d.map (fun p => if p.1 = k then (k, v) else p)
  else d ++ [(k, v)]

/-- Python dict lookup `d.get(k)`. -/
def dictGet (d : List (Str × ConstraintInfo)) (k : Str) : Option ConstraintInfo :=
  (d.find? (fun p => p.1 = k)).map (fun p => p.2)

/-- The dict value stored for a `constraint_pattern` match. -/
def mkCheckInfo (caps : Caps) : ConstraintInfo :=
  { columns := [], orders := none, primary_key := false, unique := false,
    foreign_key := none, check := true, index := false, type_ := none,
    definition := capStr caps 3 }

/-- The dict value stored for an `index_pattern` match. -/
def mkIndexInfo (caps : Caps) : ConstraintInfo :=
  { columns := [], orders := some [], primary_key := false, unique := false,
    foreign_key := none, check := false, index := true,
    type_ := some (capStr caps 4), definition := capStr caps 3 }

/-- Python `DatabaseIntrospection.get_constraints` from introspection.py,
applied to the DDL text returned by `SHOW CREATE TABLE`: first every
`constraint_pattern` match populates the dict, then every `index_pattern`
match does (overwriting equal names). -/
def get_constraints (table_sql : Str) : List (Str × ConstraintInfo) :=
  let d0 := (findall constraint_pattern table_sql).foldl
    (fun d caps => dictSet d (capStr caps 2) (mkCheckInfo caps)) []
  (findall index_pattern table_sql).foldl
    (fun d caps => dictSet d (capStr caps 2) (mkIndexInfo caps)) d0

/-- The base field-class name of a rendered field definition (the text before
the opening parenthesis). -/
def baseName (s : Str) : Str := s.takeWhile (fun c => c ≠ '(')

/-- Input string of a recursive activation (see `Call`): what the Python code
would call `column_type` resp. `remain`. -/
def callInput : Call → Str
  | .field s _ => s
  | .tloop remain => remain

/-- A plain enum label: non-empty, and free of quotes and backslashes (the
regime in which `consume_enum_choice` keeps the label verbatim). -/
def okLabel (l : Str) : Bool :=
  !l.isEmpty && l.all (fun c => !(c == '\'') && !(c == '\\'))

/-- Source rendering of one `'label' = value` enum variant. -/
def renderVariant (p : Str × Str) : Str :=
  (r"'".data) ++ p.1 ++ (r"' = ".data) ++ p.2

/-- Rendering of the trailing variants of an enum list: each preceded by the
separator `, `. -/
def renderTail (vs : List (Str × Str)) : Str :=
  vs.flatMap (fun q => (r", ".data) ++ renderVariant q)

/-- Source rendering of a comma-separated enum variant list (the text between
the parentheses of `Enum8(...)`). -/
def renderVariants : List (Str × Str) → Str
  | [] => []
  | p :: t => renderVariant p ++ renderTail t

/-- The choice tuple `f"({value}, {name})"` the decoder renders for one plain
variant (the name keeps its quotes). -/
def renderChoice (p : Str × Str) : Str :=
  (r"(".data) ++ p.2 ++ (r", '".data) ++ p.1 ++ (r"')".data)

/-- One lexical item of an escaped enum label: a plain character, a simple
backslash escape `\c`, or a hexadecimal byte escape `\xhh`. -/
inductive LItem where
  | plain (c : Char)
  | esc (c : Char)
  | hex (h1 h2 : Char)

/-- Well-formedness of a label item, matching what makes the assembled bytes
literal valid: plain characters are ASCII and are not a quote, backslash or
newline; escape characters are ASCII, not `x`, not a digit (to keep octal
escapes out) and not a newline; hex escapes carry two hex digits. -/
def LItem.ok : LItem → Bool
  | .plain c => c.toNat < 128 && !(c == '\'') && !(c == '\\') && !(c == '\n') && !(c == '\r')
  | .esc c => c.toNat < 128 && !(c == 'x') && !c.isDigit && !(c == '\n') && !(c == '\r')
  | .hex h1 h2 => (hexVal h1).isSome && (hexVal h2).isSome

/-- The characters an item contributes to the label between the quotes. -/
def LItem.render : LItem → Str
  | .plain c => [c]
  | .esc c => ['\\', c]
  | .hex h1 h2 => ['\\', 'x', h1, h2]

/-- Whether the item is a `\x` byte escape (what sets `has_bytes`). -/
def LItem.isHex : LItem → Bool
  | .hex _ _ => true
  | _ => false

/-- The bytes a simple escape `\c` denotes in a bytes literal (an unknown
escape keeps the backslash). -/
def escByte (c : Char) : List Nat :=
  if c = '\\' then [92]
  else if c = '\'' then [39]
  else if c = '"' then [34]
  else if c = 'n' then [10]
  else if c = 't' then [9]
  else if c = 'r' then [13]
  else if c = 'a' then [7]
  else if c = 'b' then [8]
  else if c = 'f' then [12]
  else if c = 'v' then [11]
  else [92, c.toNat]

/-- The bytes an item contributes to the evaluated bytes literal. -/
def LItem.bytes : LItem → List Nat
  | .plain c => [c.toNat]
  | .esc c => escByte c
  | .hex h1 h2 => [16 * (hexVal h1).getD 0 + (hexVal h2).getD 0]

/-- The label `consume_enum_choice` produces for an escaped label made of the
given items: the `repr` of the UTF-8 decoding of the assembled bytes when that
decoding succeeds, the original quoted text prefixed with `b` when it fails. -/
def label_decode_result (items : List LItem) : Str :=
  match utf8Decode (items.map LItem.bytes).flatten with
  | some txt => pyRepr txt
  | none => 'b' :: '\'' :: (items.map LItem.render).flatten ++ ['\'']

/-- Claim C1: the spec intends `DateTime('tz')` to consume the whole quoted
timezone argument, leaving an empty remainder for every non-empty quote-free
`tz`.  The code's `DateTime` branch returns from inside the timezone scan
after a single step, so for `DateTime('UTC')` the scan stops inside the
argument and the remainder is `')` rather than empty; only a one-character
timezone such as `DateTime('U')` happens to end past the closing parenthesis.
This theorem evaluates the embedded code at both inputs, exhibiting the slip
the spec flags as an accidental control-flow irregularity. -/
theorem c1_datetime_remainder :
    field_define (r"DateTime('UTC')".data) [] =
      some ([r"models.DateTimeField()".data], r"')".data) ∧
    field_define (r"DateTime('U')".data) [] =
      some ([r"models.DateTimeField()".data], []) :=
  ⟨rfl, rfl⟩

/-- Claim C2, counterexample: a table description whose middle column has the
undecodable raw type `FixedString` (the digit scan runs off the end and raises
`IndexError`).  The column loop of `handle_inspection` has no per-column
exception handler, so the loop aborts: only the first column's line is
emitted, the error flag is set, and in particular the third column — whose
type `Int32` decodes fine, as the second conjunct shows — is never emitted,
contradicting the claim that the remaining columns are still decoded. -/
theorem c2_counterexample :
    handle_rows
        [(r"a".data, r"Int16".data), (r"b".data, r"FixedString".data),
         (r"c".data, r"Int32".data)] =
      ([r"    a = models.Int16Field()".data], true) ∧
    field_line (r"c".data) (r"Int32".data) =
      some (r"    c = models.Int32Field()".data) :=
  ⟨rfl, rfl⟩

/-- Claim C2, amended: a type-decode failure is not caught at the column
boundary.  For every table description, the column loop emits exactly the
lines of the longest prefix of decodable columns and an abort flag that is set
iff some column's type decode raises; the failing column and all later
columns are dropped.  (Only table-level fetch failures are caught in
`handle_inspection`.) -/
theorem c2_decode_failure_aborts_columns (rows : List (Str × Str)) :
    handle_rows rows =
      ((rows.takeWhile (fun p => (field_line p.1 p.2).isSome)).map
          (fun p => (field_line p.1 p.2).getD []),
       rows.any (fun p => (field_line p.1 p.2).isNone)) := by
  induction rows with
  | nil => rfl
  | cons hd rest ih =>
    obtain ⟨att, typ⟩ := hd
    cases h : field_line att typ with
    | none =>
      simp [handle_rows, h, List.takeWhile_cons, List.any_cons]
    | some line =>
      simp [handle_rows, h, List.takeWhile_cons, List.any_cons, ih]

/-- Claim C3, counterexample: `index_pattern` requires at least one character
between the engine's parentheses (`\(.+?\)`), so the DDL fragment
`INDEX idx x TYPE minmax() GRANULARITY 4` — whose argument list is empty — is
not matched at all: the extracted mapping is empty and has no entry named
`idx`, contradicting the claim that an empty-parentheses index is recognized. -/
theorem c3_counterexample :
    get_constraints (r"INDEX idx x TYPE minmax() GRANULARITY 4".data) = [] ∧
    dictGet (get_constraints (r"INDEX idx x TYPE minmax() GRANULARITY 4".data))
        (r"idx".data) = none :=
  ⟨rfl, rfl⟩

/-- Claim C3, amended: the INDEX scan recognizes
`INDEX <identifier> <expression> TYPE <engine>(<args>) GRANULARITY <integer>`
only when the engine argument list is non-empty; with a non-empty argument
list, e.g. `minmax(0)`, it produces the mapping entry named `idx` of index
kind with engine type `minmax` and the full definition clause. -/
theorem c3_index_needs_nonempty_args :
    get_constraints (r"INDEX idx x TYPE minmax(0) GRANULARITY 4".data) =
      [(r"idx".data,
        { columns := [], orders := some [], primary_key := false, unique := false,
          foreign_key := none, check := false, index := true,
          type_ := some (r"minmax".data),
          definition := r"x TYPE minmax(0) GRANULARITY 4".data })] :=
  rfl

/-- Claim C6: on DDL text containing the clause
``CONSTRAINT `my check` CHECK (x > 0),`` (terminated, as every clause of a
`SHOW CREATE TABLE` body is, by a newline), the CHECK scan yields exactly one
constraint, named `my check` (the backtick-quoted identifier with its space),
of check kind, whose captured definition is `CHECK (x > 0)` with the trailing
comma excluded. -/
theorem c6_check_scan :
    get_constraints ((r"CONSTRAINT `my check` CHECK (x > 0),".data) ++ ['\n']) =
      [(r"my check".data,
        { columns := [], orders := none, primary_key := false, unique := false,
          foreign_key := none, check := true, index := false, type_ := none,
          definition := r"CHECK (x > 0)".data })] :=
  rfl

/-- Claim C7, counterexample: in this DDL text the `INDEX dup …` clause comes
first and the `CONSTRAINT dup CHECK …` clause comes later, yet the extracted
entry for `dup` is the index definition: `get_constraints` runs the CHECK
scan before the INDEX scan, so an index always overwrites a check of the same
name regardless of textual order, contradicting
last-occurrence-in-text-wins for mixed kinds. -/
theorem c7_counterexample :
    dictGet
        (get_constraints ((r"INDEX dup x TYPE set(1) GRANULARITY 1".data) ++ ['\n']
          ++ (r"CONSTRAINT dup CHECK (a > 0),".data) ++ ['\n']))
        (r"dup".data) =
      some
        { columns := [], orders := some [], primary_key := false, unique := false,
          foreign_key := none, check := false, index := true,
          type_ := some (r"set".data),
          definition := r"x TYPE set(1) GRANULARITY 1".data } :=
  rfl

/-- Claim C8: `Nullable(LowCardinality(Int16))` and
`LowCardinality(Nullable(Int16))` both decode to a single `Int16` base field
with both wrapper flags set.  The rendered parameter lists differ in order
(the code appends flags in unwrapping order), but the set of wrapper flags —
the comma-separated parameters of the rendered definition — is the same for
both nesting orders, both contain the nullable (`null=True, blank=True`) and
the `low_cardinality=True` flags, and the base field class is the same. -/
theorem c8_wrapper_flag_set :
    field_define (r"Nullable(LowCardinality(Int16))".data) [] =
      some ([r"models.Int16Field(null=True, blank=True, low_cardinality=True)".data], []) ∧
    field_define (r"LowCardinality(Nullable(Int16))".data) [] =
      some ([r"models.Int16Field(low_cardinality=True, null=True, blank=True)".data], []) ∧
    (flagSet (r"models.Int16Field(null=True, blank=True, low_cardinality=True)".data)).Perm
      (flagSet (r"models.Int16Field(low_cardinality=True, null=True, blank=True)".data)) ∧
    baseName (r"models.Int16Field(null=True, blank=True, low_cardinality=True)".data) =
      baseName (r"models.Int16Field(low_cardinality=True, null=True, blank=True)".data) ∧
    (r"low_cardinality=True".data) ∈
      flagSet (r"models.Int16Field(null=True, blank=True, low_cardinality=True)".data) ∧
    (r"null=True".data) ∈
      flagSet (r"models.Int16Field(null=True, blank=True, low_cardinality=True)".data) := by
  refine ⟨rfl, rfl, ?_, rfl, ?_, ?_⟩ <;> decide

/-- Claim C10: for every type string `T` and every description row, the field
type `get_field_type` resolves for `Nullable(` ++ `T` ++ `)` equals the one it
resolves for `T` itself — the wrapped string matches none of the
`FixedString`/`DateTime64`/`Decimal` prefixes, and the `Nullable` branch
strips `data_type[9:-1]`, which is exactly `T`. -/
theorem c10_nullable_strip (T : Str) (d : Option Str) :
    get_field_type ((r"Nullable(".data) ++ T ++ (r")".data)) d = get_field_type T d := by
  have hw : (r"Nullable(".data) ++ T ++ (r")".data) =
      'N' :: 'u' :: 'l' :: 'l' :: 'a' :: 'b' :: 'l' :: 'e' :: '(' :: (T ++ [')']) := by
    simp [List.append_assoc]
  rw [hw]
  rw [get_field_type]
  have harg :
      (('N' :: 'u' :: 'l' :: 'l' :: 'a' :: 'b' :: 'l' :: 'e' :: '(' :: (T ++ [')'])).drop 9).dropLast
        = T := by
    simp
  simp only [List.isPrefixOf, Bool.and_eq_true, beq_iff_eq, harg]
  simp +decide

/-- Rewriting a dict entry in place leaves lookups of other keys unchanged. -/
theorem find?_map_set_ne (k : Str) (v : ConstraintInfo) (k' : Str) (hne : k' ≠ k)
    (d : List (Str × ConstraintInfo)) :
    (d.map (fun p => if p.1 = k then (k, v) else p)).find? (fun p => p.1 = k') =
      d.find? (fun p => p.1 = k') := by
  induction d with
  | nil => rfl
  | cons a d ih =>
    by_cases ha : a.1 = k
    · have h2 : ¬ (a.1 = k') := by rw [ha]; exact fun h => hne h.symm
      have hk : ¬ ((k, v).1 = k') := fun h => hne h.symm
      simp only [List.map_cons, if_pos ha, List.find?_cons]
      rw [decide_eq_false hk, decide_eq_false h2]
      exact ih
    · simp only [List.map_cons, if_neg ha, List.find?_cons]
      by_cases h2 : a.1 = k'
      · rw [decide_eq_true h2]
      · rw [decide_eq_false h2]
        exact ih

/-- Rewriting a dict entry in place makes the lookup of that key return the
new value, provided the key was present. -/
theorem find?_map_set_self (k : Str) (v : ConstraintInfo)
    (d : List (Str × ConstraintInfo)) (hany : d.any (fun p => p.1 = k) = true) :
    (d.map (fun p => if p.1 = k then (k, v) else p)).find? (fun p => p.1 = k) =
      some (k, v) := by
  induction d with
  | nil => simp at hany
  | cons a d ih =>
    by_cases ha : a.1 = k
    · simp only [List.map_cons, if_pos ha, List.find?_cons]
      simp
    · simp only [List.map_cons, if_neg ha, List.find?_cons]
      rw [decide_eq_false ha]
      refine ih ?_
      rw [List.any_cons, decide_eq_false ha, Bool.false_or] at hany
      exact hany

/-- A key reported absent by `any` is not found by `find?`. -/
theorem find?_none_of_any_false (k : Str) (d : List (Str × ConstraintInfo))
    (h : d.any (fun p => p.1 = k) = false) :
    d.find? (fun p => p.1 = k) = none := by
  rw [List.find?_eq_none]
  intro x hx
  simp only [List.any_eq_false] at h
  simpa using h x hx

/-- Python dict semantics of `dictSet`: looking up `k'` after `d[k] = v`
yields `v` when `k' = k` and the old answer otherwise. -/
theorem dictGet_dictSet (d : List (Str × ConstraintInfo)) (k : Str) (v : ConstraintInfo)
    (k' : Str) :
    dictGet (dictSet d k v) k' = if k' = k then some v else dictGet d k' := by
  unfold dictSet dictGet
  by_cases hany : d.any (fun p => p.1 = k) = true
  · rw [if_pos hany]
    by_cases hk : k' = k
    · cases hk
      rw [find?_map_set_self k v d hany]
      simp
    · rw [find?_map_set_ne k v k' hk d, if_neg hk]
  · rw [if_neg hany]
    rw [List.find?_append]
    by_cases hk : k' = k
    · cases hk
      rw [find?_none_of_any_false k d (Bool.eq_false_iff.mpr hany)]
      simp [List.find?_cons]
    · have h2 : List.find? (fun p => decide (p.1 = k')) [(k, v)] = none := by
        rw [List.find?_cons, decide_eq_false (show ¬ ((k, v).1 = k') from fun h => hk h.symm)]
        rfl
      rw [h2, if_neg hk]
      cases List.find? (fun p => decide (p.1 = k')) d <;> rfl

/-- Folding dict assignments over a match list: looking up `k` afterwards
yields the value of the last match whose key is `k`, falling back to the
initial dict. -/
theorem dictGet_foldl (key : Caps → Str) (val : Caps → ConstraintInfo) :
    ∀ (l : List Caps) (d0 : List (Str × ConstraintInfo)) (k : Str),
      dictGet (l.foldl (fun d c => dictSet d (key c) (val c)) d0) k =
        (((l.filter (fun c => key c = k)).getLast?).map val).or (dictGet d0 k)
  | [], d0, k => by simp
  | c :: t, d0, k => by
    rw [List.foldl_cons, dictGet_foldl key val t, dictGet_dictSet]
    by_cases hc : key c = k
    · rw [List.filter_cons_of_pos (by simpa using hc), if_pos hc.symm]
      cases hft : t.filter (fun c => decide (key c = k)) with
      | nil => simp [hft]
      | cons c' l' =>
        rw [hft] at *
        rw [List.getLast?_cons_cons]
        cases hl : (c' :: l').getLast? with
        | none => exact absurd (List.getLast?_eq_none_iff.mp hl) (by simp)
        | some x => simp [Option.or]
    · rw [List.filter_cons_of_neg (by simpa using hc), if_neg (fun h => hc h.symm)]

/-- Claim C7, amended: the extracted mapping holds exactly one entry per name,
and which definition it is follows the scan order, not the textual order:
among matches of the same scan the later occurrence wins, but the INDEX scan
runs after the CHECK scan, so for a name matched by both, the (last) INDEX
definition always wins regardless of where the clauses sit in the DDL text.
Formally, for every DDL text and name, the lookup is the last index match of
that name if any, else the last CHECK match of that name, else absent. -/
theorem c7_scan_order_precedence (sql name : Str) :
    dictGet (get_constraints sql) name =
      ((((findall index_pattern sql).filter (fun c => capStr c 2 = name)).getLast?).map
          mkIndexInfo).or
        ((((findall constraint_pattern sql).filter (fun c => capStr c 2 = name)).getLast?).map
          mkCheckInfo) := by
  unfold get_constraints
  rw [dictGet_foldl (fun c => capStr c 2) mkIndexInfo,
    dictGet_foldl (fun c => capStr c 2) mkCheckInfo]
  have hnil : dictGet [] name = none := rfl
  rw [hnil, Option.or_none]

/-- The label scan consumes a quote-free, backslash-free label verbatim and
stops at the closing quote, leaving `has_bytes` untouched. -/
theorem scanLabelAux_plain (l : Str) (tail : Str) (hb : Bool)
    (hl : l.all (fun c => !(c == '\'') && !(c == '\\')) = true) :
    scanLabelAux (l ++ '\'' :: tail) hb = some (l ++ ['\''], hb, tail) := by
  induction l with
  | nil =>
    rw [List.nil_append, scanLabelAux.eq_def]
    simp
  | cons c l ih =>
    rw [List.all_cons, Bool.and_eq_true] at hl
    obtain ⟨hc, hl'⟩ := hl
    rw [Bool.and_eq_true] at hc
    have h1 : ¬ (c = '\'') := by simpa using hc.1
    have h2 : ¬ (c = '\\') := by simpa using hc.2
    rw [List.cons_append]
    rw [scanLabelAux.eq_def]
    simp only [if_neg h2, if_neg h1]
    rw [ih hl']
    simp

/-- The digit scan consumes a digit run ended by a non-digit verbatim. -/
theorem scanDigits_all (v : Str) (c : Char) (rest : Str)
    (hv : v.all Char.isDigit = true) (hc : c.isDigit = false) :
    scanDigits (v ++ c :: rest) = some (v, c :: rest) := by
  induction v with
  | nil =>
    rw [List.nil_append, scanDigits.eq_def]
    simp [hc]
  | cons d v ih =>
    rw [List.all_cons, Bool.and_eq_true] at hv
    rw [List.cons_append, scanDigits.eq_def]
    simp only [hv.1, if_pos]
    rw [ih hv.2]
    simp

/-- `consume_enum_choice` on a plain `'label' = value` pair (label free of
quotes and backslashes, value a digit run) returns the quoted label, the
value, and the rest of the input starting at the first non-digit. -/
theorem consume_plain (l v : Str) (c : Char) (rest : Str)
    (hl : l.all (fun c => !(c == '\'') && !(c == '\\')) = true)
    (hv : v.all Char.isDigit = true) (hc : c.isDigit = false) :
    consume_enum_choice ('\'' :: l ++ (r"' = ".data) ++ v ++ c :: rest) =
      some ('\'' :: l ++ ['\''], v, c :: rest) := by
  have harr : '\'' :: l ++ (r"' = ".data) ++ v ++ c :: rest =
      '\'' :: (l ++ '\'' :: (' ' :: '=' :: ' ' :: (v ++ c :: rest))) := by
    simp [List.append_assoc]
  rw [harr, consume_enum_choice.eq_def]
  dsimp only
  rw [scanLabelAux_plain l _ false hl]
  simp [scanDigits_all v c rest hv hc]

/-- The remainder following a variant always starts with a `,` or the closing
`)` — in particular with a non-digit, so the value scan of the preceding
variant stops exactly there. -/
theorem renderTail_head (vs : List (Str × Str)) (tail : Str) :
    ∃ c2 rest2, renderTail vs ++ ')' :: tail = c2 :: rest2 ∧ c2.isDigit = false := by
  cases vs with
  | nil => exact ⟨')', tail, by simp [renderTail], by decide⟩
  | cons q t =>
    refine ⟨',', ' ' :: (renderVariant q ++ (renderTail t ++ ')' :: tail)), ?_, by decide⟩
    simp [renderTail, List.append_assoc]

/-- The enum loop consumes the remaining `, 'label' = value` pairs one per
iteration, appending one rendered choice tuple per variant in declaration
order, and stops at the closing parenthesis. -/
theorem enum_loop_plain :
    ∀ (vs : List (Str × Str)) (f : Nat) (acc : List Str) (tail : Str),
      vs.length < f →
      (∀ p ∈ vs, okLabel p.1 = true ∧ p.2.all Char.isDigit = true) →
      enum_loop f (renderTail vs ++ ')' :: tail) acc =
        some (acc ++ vs.map renderChoice, ')' :: tail)
  | [], f, acc, tail, hf, hok => by
    obtain ⟨f', rfl⟩ : ∃ f', f = f' + 1 := ⟨f - 1, by omega⟩
    simp [renderTail, enum_loop]
  | p :: vs, f, acc, tail, hf, hok => by
    obtain ⟨f', rfl⟩ : ∃ f', f = f' + 1 := ⟨f - 1, by omega⟩
    obtain ⟨c2, rest2, heq, hc2⟩ := renderTail_head vs tail
    have hok1 := hok p (by simp)
    have hlab : p.1.all (fun c => !(c == '\'') && !(c == '\\')) = true := by
      have := hok1.1
      rw [okLabel, Bool.and_eq_true] at this
      exact this.2
    have hstep : renderTail (p :: vs) ++ ')' :: tail =
        ',' :: ' ' :: ('\'' :: p.1 ++ (r"' = ".data) ++ p.2 ++ (renderTail vs ++ ')' :: tail)) := by
      simp [renderTail, renderVariant, List.append_assoc]
    rw [hstep, enum_loop.eq_def]
    dsimp only
    rw [if_neg (by decide : ¬ (',' = ')'))]
    have hdrop : List.drop 2
        (',' :: ' ' :: ('\'' :: p.1 ++ (r"' = ".data) ++ p.2 ++ (renderTail vs ++ ')' :: tail))) =
        '\'' :: p.1 ++ (r"' = ".data) ++ p.2 ++ (renderTail vs ++ ')' :: tail) := rfl
    rw [hdrop]
    rw [show ('\'' :: p.1 ++ (r"' = ".data) ++ p.2 ++ (renderTail vs ++ ')' :: tail)) =
        ('\'' :: p.1 ++ (r"' = ".data) ++ p.2 ++ (c2 :: rest2)) from by rw [heq]]
    rw [consume_plain p.1 p.2 c2 rest2 hlab hok1.2 hc2]
    dsimp only [Option.bind_eq_bind, Option.some_bind]
    rw [show (c2 :: rest2) = renderTail vs ++ ')' :: tail from heq.symm]
    rw [enum_loop_plain vs f' (acc ++ [(r"(".data) ++ p.2 ++ (r", ".data) ++ ('\'' :: p.1 ++ ['\'']) ++ (r")".data)]) tail (by simp at hf; omega) (fun q hq => hok q (by simp [hq]))]
    have hch : (r"(".data) ++ p.2 ++ (r", ".data) ++ ('\'' :: p.1 ++ ['\'']) ++ (r")".data) =
        renderChoice p := by
      simp [renderChoice, List.append_assoc]
    rw [hch]
    simp [List.append_assoc]

/-- Claim C5: for every `Enum<width>(...)` type string whose parenthesized
content is a comma-separated list of `'label' = value` pairs (plain labels,
integer-literal values), the parse succeeds, consumes the whole enum type, and
renders the variant `(value, 'label')` pairs in declaration order with their
integer values; instantiated at `Enum8('a' = 1, 'b' = 2)` this yields the
ordered choices `(1, 'a'), (2, 'b')` (see the witness). -/
theorem c5_enum_ordered_variants (f : Nat) (wd : Str) (vs : List (Str × Str))
    (param tail : Str)
    (hf : vs.length + 1 < f) (hwd : wd.all Char.isDigit = true) (hvs : vs ≠ [])
    (hok : ∀ p ∈ vs, okLabel p.1 = true ∧ p.2.all Char.isDigit = true) :
    inspect_field_type f
        ((r"Enum".data) ++ wd ++ (r"(".data) ++ renderVariants vs ++ (r")".data) ++ tail) param =
      some ([(r"models.Enum".data) ++ wd ++ (r"Field(".data) ++
          merge_params [param,
            (r"choices=[".data) ++ List.intercalate (r", ".data) (vs.map renderChoice)
              ++ (r"]".data)]
          ++ (r")".data)], tail) := by
  obtain ⟨f', rfl⟩ : ∃ f', f = f' + 1 := ⟨f - 1, by omega⟩
  obtain ⟨p, vs', rfl⟩ : ∃ p vs', vs = p :: vs' := by
    cases vs with
    | nil => exact absurd rfl hvs
    | cons p t => exact ⟨p, t, rfl⟩
  have hs : (r"Enum".data) ++ wd ++ (r"(".data) ++ renderVariants (p :: vs') ++ (r")".data) ++ tail =
      'E' :: 'n' :: 'u' :: 'm' :: (wd ++ '(' :: (renderVariants (p :: vs') ++ ')' :: tail)) := by
    simp [List.append_assoc]
  unfold inspect_field_type
  rw [hs, inspect_core.eq_def]
  dsimp only
  rw [if_neg (by simp [List.isPrefixOf] :
        ¬ ((r"LowCardinality".data).isPrefixOf
            ('E' :: 'n' :: 'u' :: 'm' :: (wd ++ '(' :: (renderVariants (p :: vs') ++ ')' :: tail))) = true))]
  rw [if_neg (by simp [List.isPrefixOf] :
        ¬ ((r"Nullable".data).isPrefixOf
            ('E' :: 'n' :: 'u' :: 'm' :: (wd ++ '(' :: (renderVariants (p :: vs') ++ ')' :: tail))) = true))]
  rw [if_neg (by simp [List.isPrefixOf] :
        ¬ ((r"FixedString".data).isPrefixOf
            ('E' :: 'n' :: 'u' :: 'm' :: (wd ++ '(' :: (renderVariants (p :: vs') ++ ')' :: tail))) = true))]
  rw [if_neg (by simp [List.isPrefixOf] :
        ¬ ((r"DateTime64".data).isPrefixOf
            ('E' :: 'n' :: 'u' :: 'm' :: (wd ++ '(' :: (renderVariants (p :: vs') ++ ')' :: tail))) = true))]
  rw [if_neg (by simp [List.isPrefixOf] :
        ¬ ((r"DateTime".data).isPrefixOf
            ('E' :: 'n' :: 'u' :: 'm' :: (wd ++ '(' :: (renderVariants (p :: vs') ++ ')' :: tail))) = true))]
  rw [if_neg (by simp [List.isPrefixOf] :
        ¬ ((r"Decimal".data).isPrefixOf
            ('E' :: 'n' :: 'u' :: 'm' :: (wd ++ '(' :: (renderVariants (p :: vs') ++ ')' :: tail))) = true))]
  rw [if_pos (by simp [List.isPrefixOf] :
        ((r"Enum".data).isPrefixOf
            ('E' :: 'n' :: 'u' :: 'm' :: (wd ++ '(' :: (renderVariants (p :: vs') ++ ')' :: tail))) = true))]
  have hdrop4 : ('E' :: 'n' :: 'u' :: 'm' ::
      (wd ++ '(' :: (renderVariants (p :: vs') ++ ')' :: tail))).drop 4 =
      wd ++ '(' :: (renderVariants (p :: vs') ++ ')' :: tail) := rfl
  rw [hdrop4, scanDigits_all wd '(' (renderVariants (p :: vs') ++ ')' :: tail) hwd (by decide)]
  dsimp only [Option.bind_eq_bind, Option.some_bind]
  have hre : ('E' :: 'n' :: 'u' :: 'm' ::
      (wd ++ '(' :: (renderVariants (p :: vs') ++ ')' :: tail))) =
      (('E' :: 'n' :: 'u' :: 'm' :: wd) ++ '(' :: (renderVariants (p :: vs') ++ ')' :: tail)) := by
    simp
  rw [hre, List.take_left' (by simp; omega)]
  have hdrop1 : ('(' :: (renderVariants (p :: vs') ++ ')' :: tail)).drop 1 =
      renderVariants (p :: vs') ++ ')' :: tail := rfl
  rw [hdrop1]
  obtain ⟨c2, rest2, heq, hc2⟩ := renderTail_head vs' tail
  have hok1 := hok p (by simp)
  have hlab : p.1.all (fun c => !(c == '\'') && !(c == '\\')) = true := by
    have := hok1.1
    rw [okLabel, Bool.and_eq_true] at this
    exact this.2
  have hB : renderVariants (p :: vs') ++ ')' :: tail =
      '\'' :: p.1 ++ (r"' = ".data) ++ p.2 ++ (c2 :: rest2) := by
    rw [← heq]
    simp [renderVariants, renderVariant, renderTail, List.append_assoc]
  rw [hB, consume_plain p.1 p.2 c2 rest2 hlab hok1.2 hc2]
  dsimp only [Option.bind_eq_bind, Option.some_bind]
  rw [show (c2 :: rest2) = renderTail vs' ++ ')' :: tail from heq.symm]
  rw [enum_loop_plain vs' f'
      [(r"(".data) ++ p.2 ++ (r", ".data) ++ ('\'' :: p.1 ++ ['\'']) ++ (r")".data)] tail
      (by simp at hf; omega) (fun q hq => hok q (by simp [hq]))]
  dsimp only [Option.bind_eq_bind, Option.some_bind]
  have hch : (r"(".data) ++ p.2 ++ (r", ".data) ++ ('\'' :: p.1 ++ ['\'']) ++ (r")".data) =
      renderChoice p := by
    simp [renderChoice, List.append_assoc]
  rw [hch]
  have hdropP : ((')' :: tail).drop 1) = tail := rfl
  simp [List.append_assoc]

/-- Witness for C5: the hypotheses hold and the conclusion evaluates at
`Enum8('a' = 1, 'b' = 2)`, producing the ordered variants. -/
theorem c5_enum_ordered_variants_witness :
    ((r"8".data).all Char.isDigit = true ∧
      ([(r"a".data, r"1".data), (r"b".data, r"2".data)] : List (Str × Str)) ≠ [] ∧
      (∀ p ∈ ([(r"a".data, r"1".data), (r"b".data, r"2".data)] : List (Str × Str)),
        okLabel p.1 = true ∧ p.2.all Char.isDigit = true)) ∧
    inspect_field_type 10 (r"Enum8('a' = 1, 'b' = 2)".data) [] =
      some ([r"models.Enum8Field(choices=[(1, 'a'), (2, 'b')])".data], []) :=
  ⟨⟨by decide, by decide, by decide⟩,
   c5_enum_ordered_variants 10 (r"8".data)
     [(r"a".data, r"1".data), (r"b".data, r"2".data)] [] []
     (by decide) (by decide) (by decide) (by decide)⟩

/-- A hex digit is not a quote. -/
theorem hexVal_not_quote (c : Char) (h : (hexVal c).isSome = true) : ¬ (c = '\'') :=
  fun heq => by rw [heq] at h; exact absurd h (by decide)

/-- A hex digit is not a backslash. -/
theorem hexVal_not_backslash (c : Char) (h : (hexVal c).isSome = true) : ¬ (c = '\\') :=
  fun heq => by rw [heq] at h; exact absurd h (by decide)

/-- One step of the label scan over an ordinary character. -/
theorem scanLabelAux_cons_other (c : Char) (rest : Str) (hb : Bool)
    (h1 : ¬ c = '\\') (h2 : ¬ c = '\'') :
    scanLabelAux (c :: rest) hb =
      (scanLabelAux rest hb).map (fun t => (c :: t.1, t.2.1, t.2.2)) := by
  rw [scanLabelAux.eq_def]
  simp [h1, h2]

/-- One step of the label scan over a backslash escape: two characters are
skipped and `has_bytes` picks up whether the escape is `\x`. -/
theorem scanLabelAux_cons_esc (d : Char) (rest : Str) (hb : Bool) :
    scanLabelAux ('\\' :: d :: rest) hb =
      (scanLabelAux rest (hb || decide (d = 'x'))).map
        (fun t => ('\\' :: d :: t.1, t.2.1, t.2.2)) := by
  rw [scanLabelAux.eq_def]
  simp

/-- The label scan stops at an unescaped quote. -/
theorem scanLabelAux_quote (rest : Str) (hb : Bool) :
    scanLabelAux ('\'' :: rest) hb = some (['\''], hb, rest) := by
  rw [scanLabelAux.eq_def]
  simp

/-- The label scan accepts every well-formed item sequence, consuming it
verbatim up to the closing quote; `has_bytes` is set iff some item is a
`\x` byte escape. -/
theorem scanLabelAux_items (items : List LItem) (tail : Str) (hb : Bool)
    (hok : ∀ i ∈ items, LItem.ok i = true) :
    scanLabelAux ((items.map LItem.render).flatten ++ '\'' :: tail) hb =
      some ((items.map LItem.render).flatten ++ ['\''], hb || items.any LItem.isHex, tail) := by
  induction items generalizing hb with
  | nil =>
    rw [List.map_nil, List.flatten_nil, List.nil_append, List.nil_append, scanLabelAux_quote]
    simp
  | cons i items ih =>
    have hoki := hok i (by simp)
    have hok' : ∀ j ∈ items, LItem.ok j = true := fun j hj => hok j (by simp [hj])
    cases i with
    | plain c =>
      rw [LItem.ok] at hoki
      simp only [Bool.and_eq_true, beq_iff_eq] at hoki
      have h1 : ¬ (c = '\'') := by simpa using hoki.1.1.1.2
      have h2 : ¬ (c = '\\') := by simpa using hoki.1.1.2
      simp only [List.map_cons, List.flatten_cons, LItem.render, List.cons_append,
        List.nil_append, List.append_assoc]
      rw [scanLabelAux_cons_other c _ hb h2 h1]
      rw [ih hb hok']
      simp [LItem.isHex, Bool.or_assoc]
    | esc c =>
      rw [LItem.ok] at hoki
      simp only [Bool.and_eq_true, beq_iff_eq] at hoki
      have hx : ¬ (c = 'x') := by simpa using hoki.1.1.1.2
      simp only [List.map_cons, List.flatten_cons, LItem.render, List.cons_append,
        List.nil_append, List.append_assoc]
      rw [scanLabelAux_cons_esc c _ hb]
      rw [ih (hb || decide (c = 'x')) hok']
      rw [decide_eq_false hx]
      simp [LItem.isHex, Bool.or_assoc]
    | hex h1 h2 =>
      rw [LItem.ok, Bool.and_eq_true] at hoki
      have hq1 : ¬ (h1 = '\'') := hexVal_not_quote h1 hoki.1
      have hb1 : ¬ (h1 = '\\') := hexVal_not_backslash h1 hoki.1
      have hq2 : ¬ (h2 = '\'') := hexVal_not_quote h2 hoki.2
      have hb2 : ¬ (h2 = '\\') := hexVal_not_backslash h2 hoki.2
      simp only [List.map_cons, List.flatten_cons, LItem.render, List.cons_append,
        List.nil_append, List.append_assoc]
      rw [scanLabelAux_cons_esc 'x' _ hb]
      rw [scanLabelAux_cons_other h1 _ _ hb1 hq1]
      rw [scanLabelAux_cons_other h2 _ _ hb2 hq2]
      rw [ih (hb || decide ('x' = 'x')) hok']
      simp [LItem.isHex]

/-- A non-digit has no octal value. -/
theorem octVal_none_of_not_digit (c : Char) (h : c.isDigit = false) : octVal c = none := by
  rw [octVal]
  rw [if_neg]
  intro hc
  have h9 : c ≤ '9' := le_trans hc.2 (by decide)
  have : c.isDigit = true := by
    unfold Char.isDigit
    simp only [Bool.and_eq_true, decide_eq_true_eq]
    exact ⟨hc.1, h9⟩
  rw [this] at h
  exact absurd h (by decide)

/-- Bytes-literal evaluation of a plain ASCII character. -/
theorem pyBytesBody_plain (f : Nat) (c : Char) (rest : Str)
    (hok : LItem.ok (.plain c) = true) :
    pyBytesBody (f + 1) (c :: rest) = (pyBytesBody f rest).map (fun bs => c.toNat :: bs) := by
  rw [LItem.ok] at hok
  simp only [Bool.and_eq_true, beq_iff_eq, decide_eq_true_eq] at hok
  have h1 : ¬ (c = '\'') := by simpa using hok.1.1.1.2
  have h2 : ¬ (c = '\\') := by simpa using hok.1.1.2
  have h3 : ¬ (c = '\n') := by simpa using hok.1.2
  have h4 : ¬ (c = '\r') := by simpa using hok.2
  have h5 : ¬ (c.toNat ≥ 128) := by omega
  rw [pyBytesBody.eq_def]
  simp [h1, h2, h3, h4, h5]

/-- Bytes-literal evaluation of a simple escape, which contributes exactly
`escByte`. -/
theorem pyBytesBody_esc (f : Nat) (c : Char) (rest : Str)
    (hok : LItem.ok (.esc c) = true) :
    pyBytesBody (f + 1) ('\\' :: c :: rest) =
      (pyBytesBody f rest).map (fun bs => escByte c ++ bs) := by
  rw [LItem.ok] at hok
  simp only [Bool.and_eq_true, beq_iff_eq, decide_eq_true_eq] at hok
  have hx : ¬ (c = 'x') := by simpa using hok.1.1.1.2
  have hd : c.isDigit = false := by
    have := hok.1.1.2
    cases hdd : c.isDigit with
    | false => rfl
    | true => rw [hdd] at this; exact absurd this (by decide)
  have hn : ¬ (c = '\n') := by simpa using hok.1.2
  have hr : ¬ (c = '\r') := by simpa using hok.2
  have h128 : ¬ (c.toNat ≥ 128) := by omega
  rw [pyBytesBody.eq_def]
  by_cases e1 : c = '\\'
  · subst e1; simp [escByte]
  · by_cases e2 : c = '\''
    · subst e2; simp [escByte]
    · by_cases e3 : c = '"'
      · subst e3; simp [escByte]
      · by_cases e4 : c = 'n'
        · subst e4; simp [escByte]
        · by_cases e5 : c = 't'
          · subst e5; simp [escByte]
          · by_cases e6 : c = 'r'
            · subst e6; simp [escByte]
            · by_cases e7 : c = 'a'
              · subst e7; simp [escByte]
              · by_cases e8 : c = 'b'
                · subst e8; simp [escByte]
                · by_cases e9 : c = 'f'
                  · subst e9; simp [escByte]
                  · by_cases e10 : c = 'v'
                    · subst e10; simp [escByte]
                    · have hoct := octVal_none_of_not_digit c hd
                      simp [h128, hx, e1, e2, e3, e4, e5, e6, e7, e8, e9, e10, hn, hoct,
                        escByte]

/-- Bytes-literal evaluation of a `\xhh` escape. -/
theorem pyBytesBody_hex (f : Nat) (h1 h2 : Char) (rest : Str)
    (hok : LItem.ok (.hex h1 h2) = true) :
    pyBytesBody (f + 1) ('\\' :: 'x' :: h1 :: h2 :: rest) =
      (pyBytesBody f rest).map
        (fun bs => (16 * (hexVal h1).getD 0 + (hexVal h2).getD 0) :: bs) := by
  rw [LItem.ok, Bool.and_eq_true] at hok
  obtain ⟨v1, hv1⟩ := Option.isSome_iff_exists.mp hok.1
  obtain ⟨v2, hv2⟩ := Option.isSome_iff_exists.mp hok.2
  rw [pyBytesBody.eq_def]
  simp [hv1, hv2]

/-- Each item renders at least one character. -/
theorem render_flatten_length (items : List LItem) :
    items.length ≤ ((items.map LItem.render).flatten).length := by
  induction items with
  | nil => simp
  | cons i items ih =>
    simp only [List.map_cons, List.flatten_cons, List.length_append, List.length_cons]
    have : 1 ≤ (LItem.render i).length := by cases i <;> simp [LItem.render]
    omega

/-- The bytes literal assembled from well-formed items evaluates without a
SyntaxError, to the concatenation of the items' bytes. -/
theorem pyBytesBody_items :
    ∀ (items : List LItem) (f : Nat), items.length < f →
      (∀ i ∈ items, LItem.ok i = true) →
      pyBytesBody f ((items.map LItem.render).flatten) =
        some ((items.map LItem.bytes).flatten)
  | [], f, hf, hok => by
    obtain ⟨f', rfl⟩ : ∃ f', f = f' + 1 := ⟨f - 1, by omega⟩
    simp [pyBytesBody]
  | i :: items, f, hf, hok => by
    obtain ⟨f', rfl⟩ : ∃ f', f = f' + 1 := ⟨f - 1, by omega⟩
    have hoki := hok i (by simp)
    have hok' : ∀ j ∈ items, LItem.ok j = true := fun j hj => hok j (by simp [hj])
    have hf' : items.length < f' := by simp at hf; omega
    cases i with
    | plain c =>
      simp only [List.map_cons, List.flatten_cons, LItem.render, List.cons_append,
        List.nil_append]
      rw [pyBytesBody_plain f' c _ hoki]
      rw [pyBytesBody_items items f' hf' hok']
      simp [LItem.bytes]
    | esc c =>
      simp only [List.map_cons, List.flatten_cons, LItem.render, List.cons_append,
        List.nil_append]
      rw [pyBytesBody_esc f' c _ hoki]
      rw [pyBytesBody_items items f' hf' hok']
      simp [LItem.bytes]
    | hex h1 h2 =>
      simp only [List.map_cons, List.flatten_cons, LItem.render, List.cons_append,
        List.nil_append]
      rw [pyBytesBody_hex f' h1 h2 _ hoki]
      rw [pyBytesBody_items items f' hf' hok']
      simp [LItem.bytes]

/-- The full quoted bytes literal of a well-formed item sequence evaluates
successfully. -/
theorem pyBytesLit_items (items : List LItem) (hok : ∀ i ∈ items, LItem.ok i = true) :
    pyBytesLit ('\'' :: ((items.map LItem.render).flatten ++ ['\''])) =
      some ((items.map LItem.bytes).flatten) := by
  rw [pyBytesLit.eq_def]
  have hne : (items.map LItem.render).flatten ++ ['\''] ≠ [] := by simp
  have hlast : ((items.map LItem.render).flatten ++ ['\'']).getLast? = some '\'' := by
    simp
  have hdl : ((items.map LItem.render).flatten ++ ['\'']).dropLast =
      (items.map LItem.render).flatten := by
    simp
  simp only [if_pos rfl, hne, hlast, hdl, ne_eq, not_false_iff, and_self, if_pos]
  rw [List.length_append]
  simp only [List.length_cons, List.length_nil]
  rw [pyBytesBody_items items _ (by have := render_flatten_length items; omega) hok]

/-- The decode-recovery step never raises on a well-formed escaped label: it
returns the repr of the UTF-8 decoding on success and the `b`-prefixed
original on UnicodeDecodeError. -/
theorem decode_label_items (items : List LItem) (hok : ∀ i ∈ items, LItem.ok i = true) :
    decode_label ('\'' :: ((items.map LItem.render).flatten ++ ['\''])) =
      some (label_decode_result items) := by
  unfold decode_label
  rw [pyBytesLit_items items hok]
  unfold label_decode_result
  cases h : utf8Decode ((items.map LItem.bytes).flatten) with
  | none => simp [h]
  | some txt => simp [h]

/-- Claim C4, amended: for every enum label made of well-formed items (plain
ASCII characters, simple escapes, and at least one `\xhh` byte escape with
two hex digits), the byte-escape recovery inside `consume_enum_choice` never
raises: it replaces the label with the `repr` of the decoded text when the
assembled bytes are valid UTF-8 and keeps the label in its original
`b`-prefixed escaped form when decoding fails.  The original claim's
"never raises for any label the scan accepts" is false: the scan also
accepts labels whose assembled bytes literal is itself malformed (e.g. an
`\x` escape without two hex digits), and there `eval` raises an uncaught
`SyntaxError` — see the counterexample. -/
theorem c4_escape_recovery (items : List LItem) (val : Str) (c : Char) (rest : Str)
    (hitems : ∀ i ∈ items, LItem.ok i = true)
    (hhex : items.any LItem.isHex = true)
    (hval : val.all Char.isDigit = true) (hc : c.isDigit = false) :
    consume_enum_choice
        ('\'' :: (items.map LItem.render).flatten ++ (r"' = ".data) ++ val ++ c :: rest) =
      some (label_decode_result items, val, c :: rest) := by
  have harr : '\'' :: (items.map LItem.render).flatten ++ (r"' = ".data) ++ val ++ c :: rest =
      '\'' :: ((items.map LItem.render).flatten ++ '\'' :: (' ' :: '=' :: ' ' :: (val ++ c :: rest))) := by
    simp [List.append_assoc]
  rw [harr, consume_enum_choice.eq_def]
  dsimp only
  rw [scanLabelAux_items items _ false hitems]
  dsimp only [Option.bind_eq_bind, Option.some_bind]
  rw [Bool.false_or, hhex]
  rw [if_pos rfl]
  rw [decode_label_items items hitems]
  dsimp only [Option.bind_eq_bind, Option.some_bind]
  have hdrop : List.drop 3 (' ' :: '=' :: ' ' :: (val ++ c :: rest)) = val ++ c :: rest := rfl
  rw [hdrop, scanDigits_all val c rest hval hc]
  rfl

/-- Claim C4, counterexample: the label `\xzz` is accepted by the enum label
scan (first conjunct: the scan succeeds, with `has_bytes` set), but the
recovery raises: `eval(b'\xzz'...)` is a `SyntaxError`, which the
`except UnicodeDecodeError` clause does not catch, so `consume_enum_choice`
— and the whole `Enum8('\xzz' = 1)` decode — raises rather than recovering
(second and third conjuncts). -/
theorem c4_counterexample :
    scanLabelAux ((r"\xzz' = 1)".data)) false = some ((r"\xzz'".data), true, (r" = 1)".data)) ∧
    consume_enum_choice ((r"'\xzz' = 1)".data)) = none ∧
    inspect_field_type 20 ((r"Enum8('\xzz' = 1)".data)) [] = none :=
  ⟨rfl, rfl, rfl⟩

/-- Witness for C4 (amended): at the label `\xff` — a single byte escape
whose byte 255 is invalid UTF-8 — the hypotheses hold and the recovery
returns the label in its original `b`-prefixed form, raising nothing. -/
theorem c4_escape_recovery_witness :
    ((∀ i ∈ [LItem.hex 'f' 'f'], LItem.ok i = true) ∧
      ([LItem.hex 'f' 'f'].any LItem.isHex = true) ∧
      ((r"1".data).all Char.isDigit = true) ∧ (')'.isDigit = false)) ∧
    consume_enum_choice ((r"'\xff' = 1)".data)) =
      some ((r"b'\xff'".data), (r"1".data), (r")".data)) :=
  ⟨⟨by decide, by decide, by decide, by decide⟩,
   c4_escape_recovery [LItem.hex 'f' 'f'] (r"1".data) ')' []
     (by decide) (by decide) (by decide) (by decide)⟩

/-- The digit scan returns a suffix of its input. -/
theorem scanDigits_suffix : ∀ (s d r : Str), scanDigits s = some (d, r) → r <:+ s
  | [], d, r, h => by simp [scanDigits] at h
  | c :: rest, d, r, h => by
    rw [scanDigits.eq_def] at h
    dsimp only at h
    by_cases hc : c.isDigit = true
    · rw [if_pos hc] at h
      simp only [Option.map_eq_some'] at h
      obtain ⟨p, hrec, heq⟩ := h
      simp only [Prod.mk.injEq] at heq
      rw [← heq.2]
      exact (scanDigits_suffix rest p.1 p.2 hrec).trans (List.suffix_cons c rest)
    · rw [if_neg hc] at h
      simp only [Option.some.injEq, Prod.mk.injEq] at h
      rw [← h.2]

/-- The label scan returns a suffix of its input. -/
theorem scanLabelAux_suffix :
    ∀ (s : Str) (hb : Bool) (consumed : Str) (h2 : Bool) (r : Str),
      scanLabelAux s hb = some (consumed, h2, r) → r <:+ s
  | [], hb, consumed, h2, r, h => by simp [scanLabelAux] at h
  | c :: rest, hb, consumed, h2, r, h => by
    rw [scanLabelAux.eq_def] at h
    dsimp only at h
    by_cases hbs : c = '\\'
    · rw [if_pos hbs] at h
      cases rest with
      | nil => simp at h
      | cons d rest2 =>
        dsimp only at h
        simp only [Option.map_eq_some'] at h
        obtain ⟨t, hrec, heq⟩ := h
        simp only [Prod.mk.injEq] at heq
        rw [← heq.2.2]
        exact ((scanLabelAux_suffix rest2 _ t.1 t.2.1 t.2.2 hrec).trans
          (List.suffix_cons d rest2)).trans (List.suffix_cons c (d :: rest2))
    · rw [if_neg hbs] at h
      by_cases hq : c = '\''
      · rw [if_pos hq] at h
        simp only [Option.some.injEq, Prod.mk.injEq] at h
        rw [← h.2.2]
        exact List.suffix_cons c rest
      · rw [if_neg hq] at h
        simp only [Option.map_eq_some'] at h
        obtain ⟨t, hrec, heq⟩ := h
        simp only [Prod.mk.injEq] at heq
        rw [← heq.2.2]
        exact (scanLabelAux_suffix rest hb t.1 t.2.1 t.2.2 hrec).trans
          (List.suffix_cons c rest)

/-- `consume_enum_choice` returns a suffix of its input. -/
theorem consume_suffix (s n v r : Str) (h : consume_enum_choice s = some (n, v, r)) :
    r <:+ s := by
  rw [consume_enum_choice.eq_def] at h
  cases s with
  | nil => simp at h
  | cons c0 rest =>
    dsimp only at h
    simp only [Option.bind_eq_bind, Option.bind_eq_some] at h
    obtain ⟨⟨consumed, hbit, rest2⟩, hsl, h⟩ := h
    dsimp only at h
    cases hbit with
    | false =>
      simp only [Bool.false_eq_true, if_false, Option.some_bind, Option.bind_eq_some] at h
      obtain ⟨⟨vv, rest4⟩, hsd, h⟩ := h
      simp only [Option.some.injEq, Prod.mk.injEq] at h
      have h1 : rest4 <:+ rest2.drop 3 := scanDigits_suffix (rest2.drop 3) vv rest4 hsd
      have h2 : rest2 <:+ rest := scanLabelAux_suffix rest false consumed false rest2 hsl
      rw [← h.2.2]
      exact ((h1.trans (List.drop_suffix 3 rest2)).trans h2).trans (List.suffix_cons c0 rest)
    | true =>
      simp only [if_pos, Option.bind_eq_some] at h
      obtain ⟨n2, hn2, h⟩ := h
      obtain ⟨⟨vv, rest4⟩, hsd, h⟩ := h
      simp only [Option.some.injEq, Prod.mk.injEq] at h
      have h1 : rest4 <:+ rest2.drop 3 := scanDigits_suffix (rest2.drop 3) vv rest4 hsd
      have h2 : rest2 <:+ rest := scanLabelAux_suffix rest false consumed true rest2 hsl
      rw [← h.2.2]
      exact ((h1.trans (List.drop_suffix 3 rest2)).trans h2).trans (List.suffix_cons c0 rest)

/-- The enum variant loop returns a suffix of its input. -/
theorem enum_loop_suffix :
    ∀ (f : Nat) (remain : Str) (choices out : List Str) (r : Str),
      enum_loop f remain choices = some (out, r) → r <:+ remain
  | 0, remain, choices, out, r, h => by simp [enum_loop] at h
  | f + 1, remain, choices, out, r, h => by
    rw [enum_loop.eq_def] at h
    cases remain with
    | nil => simp at h
    | cons c rest =>
      dsimp only at h
      by_cases hc : c = ')'
      · rw [if_pos hc] at h
        simp only [Option.some.injEq, Prod.mk.injEq] at h
        rw [← h.2]
      · rw [if_neg hc] at h
        simp only [Option.bind_eq_bind, Option.bind_eq_some] at h
        obtain ⟨⟨nm, vv, remain2⟩, hcon, h⟩ := h
        have h1 : remain2 <:+ (c :: rest).drop 2 := consume_suffix _ nm vv remain2 hcon
        have h2 := enum_loop_suffix f remain2 _ out r h
        exact (h2.trans h1).trans (List.drop_suffix 2 (c :: rest))

/-- Every activation of the decoder — a full `inspect_field_type` call or a
`Tuple` loop pass — returns a remainder that is a suffix of the input handed
to it: the scan position only advances. -/
theorem inspect_core_suffix :
    ∀ (f : Nat) (c : Call) (out : List Str) (r : Str),
      inspect_core f c = some (out, r) → r <:+ callInput c
  | 0, c, out, r, h => by simp [inspect_core] at h
  | f + 1, .field s param, out, r, h => by
    rw [inspect_core.eq_def] at h
    dsimp only at h
    show r <:+ s
    by_cases hc1 : (r"LowCardinality".data).isPrefixOf s = true
    · rw [if_pos hc1] at h
      -- LowCardinality
      simp only [Option.bind_eq_bind, Option.bind_eq_some] at h
      obtain ⟨⟨o1, rem⟩, hrec, h⟩ := h
      simp only [Option.some.injEq, Prod.mk.injEq] at h
      rw [← h.2]
      exact ((List.drop_suffix 1 rem).trans
        (inspect_core_suffix f (.field (s.drop 15) _) o1 rem hrec)).trans
        (List.drop_suffix 15 s)
    · rw [if_neg hc1] at h
      by_cases hc2 : (r"Nullable".data).isPrefixOf s = true
      · rw [if_pos hc2] at h
        -- Nullable
        simp only [Option.bind_eq_bind, Option.bind_eq_some] at h
        obtain ⟨⟨o1, rem⟩, hrec, h⟩ := h
        simp only [Option.some.injEq, Prod.mk.injEq] at h
        rw [← h.2]
        exact ((List.drop_suffix 1 rem).trans
          (inspect_core_suffix f (.field (s.drop 9) _) o1 rem hrec)).trans
          (List.drop_suffix 9 s)
      · rw [if_neg hc2] at h
        by_cases hc3 : (r"FixedString".data).isPrefixOf s = true
        · rw [if_pos hc3] at h
          -- FixedString
          simp only [Option.bind_eq_bind, Option.bind_eq_some] at h
          obtain ⟨⟨digits, rest⟩, hscan, h⟩ := h
          simp only [Option.some.injEq, Prod.mk.injEq] at h
          rw [← h.2]
          exact ((List.drop_suffix 1 rest).trans
            (scanDigits_suffix (s.drop 12) digits rest hscan)).trans (List.drop_suffix 12 s)
        · rw [if_neg hc3] at h
          by_cases hc4 : (r"DateTime64".data).isPrefixOf s = true
          · rw [if_pos hc4] at h
            -- DateTime64
            simp only [Option.bind_eq_bind, Option.bind_eq_some] at h
            obtain ⟨c11, h11, h⟩ := h
            obtain ⟨prec, hprec, h⟩ := h
            obtain ⟨c12, h12, h⟩ := h
            by_cases hcomma : c12 = ','
            · rw [if_pos hcomma] at h
              simp only [Option.bind_eq_bind, Option.bind_eq_some] at h
              obtain ⟨k, hk, h⟩ := h
              simp only [Option.some.injEq, Prod.mk.injEq] at h
              rw [← h.2]
              exact List.drop_suffix (k + 2) s
            · rw [if_neg hcomma] at h
              simp only [Option.some.injEq, Prod.mk.injEq] at h
              rw [← h.2]
              exact List.drop_suffix 13 s
          · rw [if_neg hc4] at h
            by_cases hc5 : (r"DateTime".data).isPrefixOf s = true
            · rw [if_pos hc5] at h
              -- DateTime
              by_cases hp : 8 < s.length ∧ s[8]? = some '('
              · rw [if_pos hp] at h
                cases h10 : s[10]? with
                | none => rw [h10] at h; simp at h
                | some c =>
                  rw [h10] at h
                  dsimp only at h
                  by_cases hq : c = '\''
                  · rw [if_neg (by simp [hq])] at h
                    simp only [Option.some.injEq, Prod.mk.injEq] at h
                    rw [← h.2]
                    exact List.drop_suffix 8 s
                  · rw [if_pos (by simpa using hq)] at h
                    simp only [Option.some.injEq, Prod.mk.injEq] at h
                    rw [← h.2]
                    exact List.drop_suffix 13 s
              · rw [if_neg hp] at h
                simp only [Option.some.injEq, Prod.mk.injEq] at h
                rw [← h.2]
                exact List.drop_suffix 8 s
            · rw [if_neg hc5] at h
              by_cases hc6 : (r"Decimal".data).isPrefixOf s = true
              · rw [if_pos hc6] at h
                -- Decimal
                simp only [Option.bind_eq_bind, Option.bind_eq_some] at h
                obtain ⟨⟨d1, r1⟩, hs1, h⟩ := h
                obtain ⟨⟨d2, r2⟩, hs2, h⟩ := h
                simp only [Option.some.injEq, Prod.mk.injEq] at h
                rw [← h.2]
                exact ((List.drop_suffix 1 r2).trans
                  (((scanDigits_suffix (r1.drop 2) d2 r2 hs2).trans (List.drop_suffix 2 r1)).trans
                    ((scanDigits_suffix (s.drop 8) d1 r1 hs1).trans (List.drop_suffix 8 s))))
              · rw [if_neg hc6] at h
                by_cases hc7 : (r"Enum".data).isPrefixOf s = true
                · rw [if_pos hc7] at h
                  -- Enum
                  simp only [Option.bind_eq_bind, Option.bind_eq_some] at h
                  obtain ⟨⟨wd, rest1⟩, hs1, h⟩ := h
                  obtain ⟨⟨nm, vv, remain⟩, hcon, h⟩ := h
                  obtain ⟨⟨choices2, remain2⟩, hloop, h⟩ := h
                  simp only [Option.some.injEq, Prod.mk.injEq] at h
                  rw [← h.2]
                  have hA : remain2 <:+ remain := enum_loop_suffix f remain _ choices2 remain2 hloop
                  have hB : remain <:+ rest1.drop 1 := consume_suffix (rest1.drop 1) nm vv remain hcon
                  have hC : rest1 <:+ s.drop 4 := scanDigits_suffix (s.drop 4) wd rest1 hs1
                  exact ((List.drop_suffix 1 remain2).trans
                    (((hA.trans hB).trans (List.drop_suffix 1 rest1)).trans
                      (hC.trans (List.drop_suffix 4 s))))
                · rw [if_neg hc7] at h
                  by_cases hc8 : (r"Array".data).isPrefixOf s = true
                  · rw [if_pos hc8] at h
                    -- Array
                    simp only [Option.bind_eq_bind, Option.bind_eq_some] at h
                    obtain ⟨⟨o1, rem⟩, hrec, h⟩ := h
                    simp only [Option.some.injEq, Prod.mk.injEq] at h
                    rw [← h.2]
                    exact ((List.drop_suffix 1 rem).trans
                      (inspect_core_suffix f (.field (s.drop 6) []) o1 rem hrec)).trans
                      (List.drop_suffix 6 s)
                  · rw [if_neg hc8] at h
                    by_cases hc9 : (r"Tuple".data).isPrefixOf s = true
                    · rw [if_pos hc9] at h
                      -- Tuple
                      simp only [Option.bind_eq_bind, Option.bind_eq_some] at h
                      obtain ⟨⟨o1, rem⟩, hrec, h⟩ := h
                      obtain ⟨⟨o2, rem2⟩, hrec2, h⟩ := h
                      simp only [Option.some.injEq, Prod.mk.injEq] at h
                      rw [← h.2]
                      exact ((List.drop_suffix 1 rem2).trans
                        ((inspect_core_suffix f (.tloop rem) o2 rem2 hrec2).trans
                          ((inspect_core_suffix f (.field (s.drop 6) []) o1 rem hrec).trans
                            (List.drop_suffix 6 s))))
                    · rw [if_neg hc9] at h
                      by_cases hc10 : (r"Map".data).isPrefixOf s = true
                      · rw [if_pos hc10] at h
                        -- Map
                        simp only [Option.bind_eq_bind, Option.bind_eq_some] at h
                        obtain ⟨⟨o1, r1⟩, hrec, h⟩ := h
                        obtain ⟨⟨o2, r2⟩, hrec2, h⟩ := h
                        simp only [Option.some.injEq, Prod.mk.injEq] at h
                        rw [← h.2]
                        exact ((List.drop_suffix 1 r2).trans
                          (((inspect_core_suffix f (.field (r1.drop 2) []) o2 r2 hrec2).trans
                              (List.drop_suffix 2 r1)).trans
                            ((inspect_core_suffix f (.field (s.drop 4) []) o1 r1 hrec).trans
                              (List.drop_suffix 4 s))))
                      · rw [if_neg hc10] at h
                        by_cases hc11 : (r"Object('json')".data).isPrefixOf s = true
                        · rw [if_pos hc11] at h
                          -- Object
                          simp only [Option.some.injEq, Prod.mk.injEq] at h
                          rw [← h.2]
                          exact List.drop_suffix 14 s
                        · rw [if_neg hc11] at h
                          -- fallback
                          simp only [Option.some.injEq, Prod.mk.injEq] at h
                          rw [← h.2]
                          exact List.dropWhile_suffix Char.isAlphanum
  | f + 1, .tloop remain, out, r, h => by
    rw [inspect_core.eq_def] at h
    show r <:+ remain
    cases remain with
    | nil => simp at h
    | cons c rest =>
      dsimp only at h
      by_cases hc : c = ','
      · rw [if_pos hc] at h
        simp only [Option.bind_eq_bind, Option.bind_eq_some] at h
        obtain ⟨⟨o1, r1⟩, hrec, h⟩ := h
        obtain ⟨⟨o2, r2⟩, hrec2, h⟩ := h
        simp only [Option.some.injEq, Prod.mk.injEq] at h
        rw [← h.2]
        exact ((inspect_core_suffix f (.tloop r1) o2 r2 hrec2).trans
          ((inspect_core_suffix f (.field ((c :: rest).drop 2) []) o1 r1 hrec).trans
            (List.drop_suffix 2 (c :: rest))))
      · rw [if_neg hc] at h
        simp only [Option.some.injEq, Prod.mk.injEq] at h
        rw [← h.2]

/-- Claim C9: whenever the type parse succeeds, the returned remainder is a
suffix of the input string handed to the production — the parser only
consumes a prefix, the scan position only advances and already-consumed
characters are never re-read.  The statement quantifies over every fuel,
input and parameter, so it covers every recursive sub-parse (each sub-parse
is itself an `inspect_field_type` activation on the input handed to it, and
the `Tuple`/`Enum` loops are covered by the underlying
`inspect_core_suffix` induction). -/
theorem c9_remainder_is_suffix (fuel : Nat) (s param : Str) (out : List Str) (remain : Str)
    (h : inspect_field_type fuel s param = some (out, remain)) : remain <:+ s :=
  inspect_core_suffix fuel (.field s param) out remain h

/-- Witness for C9: decoding `Int16)` succeeds with remainder `)`, which is a
suffix of the input. -/
theorem c9_remainder_is_suffix_witness :
    inspect_field_type 9 (r"Int16)".data) [] =
      some ([r"models.Int16Field()".data], (r")".data)) ∧
    (r")".data) <:+ (r"Int16)".data) :=
  ⟨rfl, c9_remainder_is_suffix 9 (r"Int16)".data) [] [r"models.Int16Field()".data]
    (r")".data) rfl⟩
